import Mathlib

set_option maxHeartbeats 1000000

/-! Verification model of the query-core client-side data-fetching library.

The library's core (the QueryCore facade, endpoint registry, state machine,
request coalescer, subscription engine, refresh orchestrator and the cache
providers) is modelled here as pure Lean functions.  The implementation file
itself is not among the available sources; every definition below is
Modelled from the spec, and pinned by the behaviour exercised in the test
suites under src/tests (which are available), in particular the literal
cache-key prefix, the option strings accepted for the cache provider, and
the shape of the endpoint record and its merged options. -/

/-- JSON-style primitive values produced by endpoints. -/
inductive Prim where
  | pnull : Prim
  | pbool : Bool → Prim
  | pnum : Int → Prim
  | pstr : String → Prim
deriving DecidableEq

mutual
/-- Modelled from the spec: arbitrary structured data values produced by an
endpoint's producer and persisted by cache providers (JSON-like trees). -/
inductive Value where
  | prim : Prim → Value
  | obj : Fields → Value

/-- Field list of a structured value (insertion ordered, as in a JS object). -/
inductive Fields where
  | fnil : Fields
  | fcons : String → Value → Fields → Fields
end

/-- First field with the given name, as JS property lookup. -/
def Fields.get : Fields → String → Option Value
  | .fnil, _ => none
  | .fcons k v rest, key => if k = key then some v else rest.get key

/-- Modelled from the spec: the persisted cache entry shape, data plus the
milliseconds-since-epoch timestamp of the last successful production. -/
structure CacheEntry where
  data : Value
  lastUpdated : Nat

/-- Serialization of a cache entry to the stored JSON object. -/
def encodeEntry (e : CacheEntry) : Value :=
  .obj (.fcons "data" e.data (.fcons "lastUpdated" (.prim (.pnum e.lastUpdated)) .fnil))

/-- Modelled from the spec: structural validation of a raw stored value.
Missing data or a non-numeric lastUpdated is a cache miss; unknown
top-level fields are ignored. -/
def parseEntry (v : Value) : Option CacheEntry :=
  match v with
  | .obj fs =>
    match fs.get "data", fs.get "lastUpdated" with
    | some d, some (.prim (.pnum n)) => if 0 ≤ n then some ⟨d, n.toNat⟩ else none
    | _, _ => none
  | _ => none

theorem parseEntry_encodeEntry (e : CacheEntry) : parseEntry (encodeEntry e) = some e := by
  simp [parseEntry, encodeEntry, Fields.get]

/-- Modelled from the spec: the per-endpoint state exposed to subscribers. -/
structure EndpointState where
  data : Option Value
  lastUpdated : Option Nat
  isLoading : Bool
  isError : Bool
  error : Option String

/-- The empty initial state. -/
def initialState : EndpointState := ⟨none, none, false, false, none⟩

/-- Modelled from the spec: a cache backing store shared by all endpoints of
a core instance.  The failing flag models a backend error (quota error,
failed database open, transaction failure); the provider layer below must
absorb it. -/
structure CacheBackend where
  store : List (String × Value)
  failing : Bool

def storeLookup : List (String × Value) → String → Option Value
  | [], _ => none
  | (k, v) :: rest, key => if k = key then some v else storeLookup rest key

def storeInsert : List (String × Value) → String → Value → List (String × Value)
  | [], key, v => [(key, v)]
  | (k, v0) :: rest, key, v =>
    if k = key then (key, v) :: rest else (k, v0) :: storeInsert rest key v

def storeErase : List (String × Value) → String → List (String × Value)
  | [], _ => []
  | (k, v0) :: rest, key => if k = key then rest else (k, v0) :: storeErase rest key

/-- Raw backend read: errors when the backend is failing. -/
def rawGet (b : CacheBackend) (k : String) : Except String (Option Value) :=
  if b.failing then .error "backend failure" else .ok (storeLookup b.store k)

/-- Provider read: fail-soft wrapper over the raw backend, a backend error
resolves to a cache miss. -/
def provGet (b : CacheBackend) (k : String) : Option Value :=
  match rawGet b k with
  | .error _ => none
  | .ok r => r

/-- Raw backend write: errors when the backend is failing. -/
def rawSet (b : CacheBackend) (k : String) (v : Value) : Except String CacheBackend :=
  if b.failing then .error "backend failure" else .ok ⟨storeInsert b.store k v, b.failing⟩

/-- Provider write: fail-soft, a backend error is swallowed and the store is
left untouched. -/
def provSet (b : CacheBackend) (k : String) (v : Value) : CacheBackend :=
  match rawSet b k v with
  | .error _ => b
  | .ok b2 => b2

/-- Raw backend delete: errors when the backend is failing. -/
def rawRemove (b : CacheBackend) (k : String) : Except String CacheBackend :=
  if b.failing then .error "backend failure" else .ok ⟨storeErase b.store k, b.failing⟩

/-- Provider delete: fail-soft. -/
def provRemove (b : CacheBackend) (k : String) : CacheBackend :=
  match rawRemove b k with
  | .error _ => b
  | .ok b2 => b2

theorem storeLookup_insert_self (st : List (String × Value)) (k : String) (v : Value) :
    storeLookup (storeInsert st k v) k = some v := by
  induction st with
  | nil => simp [storeInsert, storeLookup]
  | cons hd tl ih =>
    by_cases h : hd.1 = k <;> simp [storeInsert, storeLookup, h, ih]

/-- The option strings the construction and per-endpoint cacheProvider
option accepts.  The test suite passes the literal strings "localStorage"
and "indexedDB" and checks the resolved provider class; "memory" is the
in-process default named by the spec. -/
inductive CacheProviderName where
  | memory : CacheProviderName
  | localStorage : CacheProviderName
  | indexedDB : CacheProviderName
deriving DecidableEq

/-- Modelled from the spec: the set of accepted cacheProvider option values,
as a recognizer over the raw option string. -/
def parseCacheProviderName : String → Option CacheProviderName
  | "memory" => some .memory
  | "localStorage" => some .localStorage
  | "indexedDB" => some .indexedDB
  | _ => none

/-- Per-endpoint options as stored on the endpoint record. -/
structure EndpointOptions where
  cacheProvider : Option CacheProviderName
  refetchAfter : Option Nat
deriving DecidableEq

/-- Construction options of a core instance. -/
structure QueryCoreOptions where
  cacheProvider : Option CacheProviderName
  defaultRefetchAfter : Option Nat
deriving DecidableEq

/-- Modelled from the spec: the endpoint record held in the registry.  The
producer is an opaque function; the model tracks it by identity only. -/
structure EndpointRecord where
  fetcherId : Nat
  options : EndpointOptions
  provider : CacheProviderName
  state : EndpointState
  listeners : List Nat
  inFlight : Option Nat

/-- Modelled from the spec: the facade holding the construction options and
the endpoint registry. -/
structure QueryCore where
  options : QueryCoreOptions
  endpoints : List (String × EndpointRecord)

def newQueryCore (opts : QueryCoreOptions) : QueryCore := ⟨opts, []⟩

/-- Construction with no options at all. -/
def defaultQueryCoreOptions : QueryCoreOptions := ⟨none, none⟩

/-- Provider resolution: per-endpoint option wins, then the construction
option, then the memory provider. -/
def resolveProvider (core : QueryCore) (opts : EndpointOptions) : CacheProviderName :=
  match opts.cacheProvider with
  | some p => p
  | none =>
    match core.options.cacheProvider with
    | some p => p
    | none => .memory

/-- Effective staleness window: per-endpoint refetchAfter, falling back to
the construction-time defaultRefetchAfter when absent. -/
def effRefetchAfter (core : QueryCore) (r : EndpointRecord) : Option Nat :=
  match r.options.refetchAfter with
  | some n => some n
  | none => core.options.defaultRefetchAfter

def lookupEp : List (String × EndpointRecord) → String → Option EndpointRecord
  | [], _ => none
  | (k, r) :: rest, key => if k = key then some r else lookupEp rest key

def setEp : List (String × EndpointRecord) → String → EndpointRecord → List (String × EndpointRecord)
  | [], key, r => [(key, r)]
  | (k, r0) :: rest, key, r =>
    if k = key then (key, r) :: rest else (k, r0) :: setEp rest key r

theorem lookupEp_setEp_self (l : List (String × EndpointRecord)) (k : String) (r : EndpointRecord) :
    lookupEp (setEp l k r) k = some r := by
  induction l with
  | nil => simp [setEp, lookupEp]
  | cons hd tl ih =>
    by_cases h : hd.1 = k <;> simp [setEp, lookupEp, h, ih]

theorem lookupEp_setEp_ne (l : List (String × EndpointRecord)) (k k2 : String) (r : EndpointRecord)
    (h : k ≠ k2) : lookupEp (setEp l k r) k2 = lookupEp l k2 := by
  induction l with
  | nil => simp [setEp, lookupEp, h]
  | cons hd tl ih =>
    obtain ⟨a, b⟩ := hd
    by_cases h2 : a = k
    · subst h2
      simp [setEp, lookupEp, h]
    · by_cases h3 : a = k2
      · subst h3
        simp [setEp, lookupEp, h2]
      · simp [setEp, lookupEp, h2, h3, ih]

theorem setEp_lookupEp_eq (l : List (String × EndpointRecord)) (k : String) (r : EndpointRecord)
    (h : lookupEp l k = some r) : setEp l k r = l := by
  induction l with
  | nil => simp [lookupEp] at h
  | cons hd tl ih =>
    obtain ⟨a, b⟩ := hd
    by_cases h2 : a = k
    · subst h2
      simp [lookupEp] at h
      subst h
      simp [setEp]
    · simp [lookupEp, h2] at h
      simp [setEp, h2, ih h]

theorem mem_of_lookupEp (l : List (String × EndpointRecord)) (k : String) (r : EndpointRecord)
    (h : lookupEp l k = some r) : (k, r) ∈ l := by
  induction l with
  | nil => simp [lookupEp] at h
  | cons hd tl ih =>
    obtain ⟨a, b⟩ := hd
    by_cases h2 : a = k
    · subst h2
      simp [lookupEp] at h
      subst h
      exact List.mem_cons_self _ _
    · simp [lookupEp, h2] at h
      exact List.mem_cons_of_mem _ (ih h)

theorem lookupEp_of_mem_nodup (l : List (String × EndpointRecord)) (k : String) (r : EndpointRecord)
    (hn : (l.map Prod.fst).Nodup) (h : (k, r) ∈ l) : lookupEp l k = some r := by
  induction l with
  | nil => simp at h
  | cons hd tl ih =>
    obtain ⟨a, b⟩ := hd
    rw [List.mem_cons] at h
    simp only [List.map_cons, List.nodup_cons] at hn
    rcases h with h | h
    · rw [Prod.ext_iff] at h
      obtain ⟨h1, h4⟩ := h
      subst h1
      subst h4
      simp [lookupEp]
    · have hne : a ≠ k := by
        intro he
        subst he
        exact hn.1 (List.mem_map_of_mem Prod.fst h)
      simp [lookupEp, hne, ih hn.2 h]

/-- Observable actions of the core: producer invocations, listener
notifications carrying the delivered snapshot, and cache traffic. -/
inductive Event where
  | producerCall : String → Event
  | notify : Nat → EndpointState → Event
  | cacheRead : String → Event
  | cacheWrite : String → Value → Event
  | cacheDrop : String → Event

/-- Fan a snapshot out to every current listener, in insertion order. -/
def notifyAll (listeners : List Nat) (st : EndpointState) : List Event :=
  listeners.map fun l => Event.notify l st

def countProducerCalls (key : String) : List Event → Nat
  | [] => 0
  | Event.producerCall k :: rest =>
    (if k = key then 1 else 0) + countProducerCalls key rest
  | _ :: rest => countProducerCalls key rest

/-- Number of loading notifications (snapshot with isLoading set) delivered
to a given listener. -/
def countLoadingNotifies (l : Nat) : List Event → Nat
  | [] => 0
  | Event.notify l0 st :: rest =>
    (if l0 = l then if st.isLoading then 1 else 0 else 0) + countLoadingNotifies l rest
  | _ :: rest => countLoadingNotifies l rest

/-- Number of settled notifications (snapshot with isLoading cleared)
delivered to a given listener. -/
def countSettledNotifies (l : Nat) : List Event → Nat
  | [] => 0
  | Event.notify l0 st :: rest =>
    (if l0 = l then if st.isLoading then 0 else 1 else 0) + countSettledNotifies l rest
  | _ :: rest => countSettledNotifies l rest

theorem countProducerCalls_append (key : String) (a b : List Event) :
    countProducerCalls key (a ++ b) = countProducerCalls key a + countProducerCalls key b := by
  induction a with
  | nil => simp [countProducerCalls]
  | cons hd tl ih => cases hd <;> simp [countProducerCalls, ih] <;> omega

theorem countLoadingNotifies_append (l : Nat) (a b : List Event) :
    countLoadingNotifies l (a ++ b) = countLoadingNotifies l a + countLoadingNotifies l b := by
  induction a with
  | nil => simp [countLoadingNotifies]
  | cons hd tl ih => cases hd <;> simp [countLoadingNotifies, ih] <;> omega

theorem countSettledNotifies_append (l : Nat) (a b : List Event) :
    countSettledNotifies l (a ++ b) = countSettledNotifies l a + countSettledNotifies l b := by
  induction a with
  | nil => simp [countSettledNotifies]
  | cons hd tl ih => cases hd <;> simp [countSettledNotifies, ih] <;> omega

theorem countProducerCalls_notifyAll (key : String) (ls : List Nat) (st : EndpointState) :
    countProducerCalls key (notifyAll ls st) = 0 := by
  induction ls with
  | nil => simp [notifyAll, countProducerCalls]
  | cons hd tl ih => simpa [notifyAll, countProducerCalls] using ih

theorem countLoadingNotifies_notifyAll (l : Nat) (ls : List Nat) (st : EndpointState) :
    countLoadingNotifies l (notifyAll ls st) =
      if st.isLoading then ls.count l else 0 := by
  induction ls with
  | nil => simp [notifyAll, countLoadingNotifies]
  | cons hd tl ih =>
    by_cases h : hd = l <;>
      cases hst : st.isLoading <;>
        simp [notifyAll, countLoadingNotifies, h, hst, List.count_cons] at ih ⊢ <;>
          omega

theorem countSettledNotifies_notifyAll (l : Nat) (ls : List Nat) (st : EndpointState) :
    countSettledNotifies l (notifyAll ls st) =
      if st.isLoading then 0 else ls.count l := by
  induction ls with
  | nil => simp [notifyAll, countSettledNotifies]
  | cons hd tl ih =>
    by_cases h : hd = l <;>
      cases hst : st.isLoading <;>
        simp [notifyAll, countSettledNotifies, h, hst, List.count_cons] at ih ⊢ <;>
          omega

/-- Cache keys are namespaced under a fixed prefix, as checked literally by
the test suite. -/
def prefixedKey (key : String) : String := "QueryCore_" ++ key

/-- Modelled from the spec: the one cache hydration attempted by
defineEndpoint.  A hit with valid shape yields a settled state carrying the
entry; anything else yields the empty initial state. -/
def hydrateState (b : CacheBackend) (key : String) : EndpointState :=
  match (provGet b (prefixedKey key)).bind parseEntry with
  | some e => ⟨some e.data, some e.lastUpdated, false, false, none⟩
  | none => initialState

/-- Modelled from the spec: defineEndpoint merges options (stored as given,
per-endpoint values win at resolution time), resolves the cache provider,
installs or replaces the record, and attempts exactly one cache hydration.
Redefining an existing key replaces producer and options but preserves the
in-memory state.  No production is triggered. -/
def defineEndpoint (core : QueryCore) (key : String) (fetcherId : Nat)
    (opts : EndpointOptions) (b : CacheBackend) : QueryCore × List Event :=
  let newRec : EndpointRecord :=
    match lookupEp core.endpoints key with
    | some r =>
      { r with fetcherId := fetcherId, options := opts, provider := resolveProvider core opts }
    | none =>
      ⟨fetcherId, opts, resolveProvider core opts, hydrateState b key, [], none⟩
  (⟨core.options, setEp core.endpoints key newRec⟩, [Event.cacheRead (prefixedKey key)])

/-- Current state of an endpoint; the empty initial state for unknown keys. -/
def getState (core : QueryCore) (key : String) : EndpointState :=
  match lookupEp core.endpoints key with
  | some r => r.state
  | none => initialState

/-- Outcome of the awaited producer: it either resolves with a value or
throws or rejects with an error. -/
inductive ProducerResult where
  | success : Value → ProducerResult
  | failure : String → ProducerResult

/-- Result of the synchronous first half of refetch. -/
structure RefetchStartResult where
  core : QueryCore
  events : List Event
  promise : Option Nat
  started : Bool

/-- Modelled from the spec: the synchronous part of refetch.  A call while a
production is in flight returns that in-flight promise and does nothing
else (coalescing).  Otherwise the loading transition completes and notifies
before the producer is invoked, and a fresh in-flight promise is installed. -/
def refetchStart (core : QueryCore) (key : String) (fresh : Nat) : RefetchStartResult :=
  match lookupEp core.endpoints key with
  | none => ⟨core, [], none, false⟩
  | some r =>
    match r.inFlight with
    | some p => ⟨core, [], some p, false⟩
    | none =>
      let st := { r.state with isLoading := true }
      ⟨⟨core.options, setEp core.endpoints key { r with state := st, inFlight := some fresh }⟩,
        notifyAll r.listeners st ++ [Event.producerCall key],
        some fresh, true⟩

/-- Modelled from the spec: the completion half of refetch, run when the
producer settles.  Success replaces data and lastUpdated, clears the error,
writes the cache entry and notifies; failure keeps data and lastUpdated,
sets the error and notifies without touching the cache.  Both clear the
in-flight handle. -/
def refetchComplete (core : QueryCore) (key : String) (result : ProducerResult)
    (now : Nat) (b : CacheBackend) : QueryCore × CacheBackend × List Event :=
  match lookupEp core.endpoints key with
  | none => (core, b, [])
  | some r =>
    match result with
    | .success v =>
      let st : EndpointState := ⟨some v, some now, false, false, none⟩
      (⟨core.options, setEp core.endpoints key { r with state := st, inFlight := none }⟩,
       provSet b (prefixedKey key) (encodeEntry ⟨v, now⟩),
       Event.cacheWrite (prefixedKey key) (encodeEntry ⟨v, now⟩) :: notifyAll r.listeners st)
    | .failure e =>
      let st : EndpointState :=
        { r.state with isLoading := false, isError := true, error := some e }
      (⟨core.options, setEp core.endpoints key { r with state := st, inFlight := none }⟩,
       b, notifyAll r.listeners st)

/-- A whole awaited refetch: the producer settles with the given result at
time now.  Total by construction: the returned promise always resolves,
also on producer failure. -/
def refetch (core : QueryCore) (key : String) (result : ProducerResult)
    (now fresh : Nat) (b : CacheBackend) : QueryCore × CacheBackend × List Event :=
  let s := refetchStart core key fresh
  if s.started then
    let c := refetchComplete s.core key result now b
    (c.1, c.2.1, s.events ++ c.2.2)
  else
    (s.core, b, s.events)

/-- Modelled from the spec: the staleness predicate.  A record is stale when
its data is undefined, or a staleness window is set and at least that much
time has passed since lastUpdated. -/
def isStale (now : Nat) (window : Option Nat) (st : EndpointState) : Bool :=
  match st.data with
  | none => true
  | some _ =>
    match window, st.lastUpdated with
    | some ra, some lu => ra ≤ now - lu
    | _, _ => false

/-- Result of a subscribe call: the updated core, the events delivered
synchronously, and whether a refetch was scheduled as a microtask. -/
structure SubscribeResult where
  core : QueryCore
  events : List Event
  scheduledRefetch : Bool

/-- Modelled from the spec: subscribe adds the listener, synchronously
delivers the current snapshot to it, and schedules a microtask-deferred
refetch exactly when the record is stale and no production is in flight. -/
def subscribe (core : QueryCore) (key : String) (listener : Nat) (now : Nat) :
    SubscribeResult :=
  match lookupEp core.endpoints key with
  | none => ⟨core, [], false⟩
  | some r =>
    ⟨⟨core.options, setEp core.endpoints key { r with listeners := r.listeners ++ [listener] }⟩,
      [Event.notify listener r.state],
      isStale now (effRefetchAfter core r) r.state && r.inFlight.isNone⟩

/-- A subscribe together with the deferred microtask it scheduled, if any:
the scheduled refetch begins once the synchronous snapshot delivery is
done. -/
def subscribeFlow (core : QueryCore) (key : String) (listener : Nat) (now fresh : Nat) :
    QueryCore × List Event :=
  let s := subscribe core key listener now
  if s.scheduledRefetch then
    let r2 := refetchStart s.core key fresh
    (r2.core, s.events ++ r2.events)
  else
    (s.core, s.events)

/-- n further refetch calls issued while a production may be in flight;
collects the promise returned to each caller. -/
def iterateStarts (core : QueryCore) (key : String) : Nat → QueryCore × List Event × List (Option Nat)
  | 0 => (core, [], [])
  | n + 1 =>
    let s := refetchStart core key (1000000 + n)
    let rest := iterateStarts s.core key n
    (rest.1, s.events ++ rest.2.1, s.promise :: rest.2.2)

/-- N+1 concurrent refetch calls on one endpoint followed by the settling
of the single production: one initial call, n further calls while the
production is in flight, then the completion.  Returns the final core and
backend, the full event trace and the promises handed to the n late
callers. -/
def concurrentRefetch (core : QueryCore) (key : String) (n : Nat) (result : ProducerResult)
    (now fresh : Nat) (b : CacheBackend) :
    QueryCore × CacheBackend × List Event × List (Option Nat) :=
  let s := refetchStart core key fresh
  let i := iterateStarts s.core key n
  let c := refetchComplete i.1 key result now b
  (c.1, c.2.1, s.events ++ i.2.1 ++ c.2.2, i.2.2)

/-- Modelled from the spec: the keys the visibility and focus handler
refetches, the observed (at least one listener) records that are stale. -/
def focusKeys (core : QueryCore) (now : Nat) : List String :=
  (core.endpoints.filter fun kv =>
    !kv.2.listeners.isEmpty && isStale now (effRefetchAfter core kv.2) kv.2.state).map Prod.fst

/-- Modelled from the spec: the keys the online handler refetches, every
observed record regardless of staleness. -/
def onlineKeys (core : QueryCore) : List String :=
  (core.endpoints.filter fun kv => !kv.2.listeners.isEmpty).map Prod.fst

/-- Schedule a refetch for each listed key in turn (each one coalesces with
any in-flight production for its key). -/
def refetchKeys (core : QueryCore) (base : Nat) : List String → QueryCore × List Event
  | [] => (core, [])
  | k :: rest =>
    let s := refetchStart core k base
    let r2 := refetchKeys s.core (base + 1) rest
    (r2.1, s.events ++ r2.2)

/-- Modelled from the spec: the visibility-change and window-focus handler. -/
def handleFocus (core : QueryCore) (now base : Nat) : QueryCore × List Event :=
  refetchKeys core base (focusKeys core now)

/-- Modelled from the spec: the network-online handler, a forced refresh of
every observed endpoint. -/
def handleOnline (core : QueryCore) (base : Nat) : QueryCore × List Event :=
  refetchKeys core base (onlineKeys core)

/-- A value as held on the mutable JS heap: a primitive, or a reference to a
heap object. -/
inductive HVal where
  | prim : Prim → HVal
  | ref : Nat → HVal

/-- A heap object is its property list; the heap is addressed by index. -/
abbrev HObj := List (String × HVal)

abbrev Heap := List HObj

mutual
/-- Read the pure tree value behind a heap value; the fuel bounds the
dereferencing depth (a heap whose reachable depth exceeds the fuel, for
example a cyclic one, reads back as none). -/
def readHVal (h : Heap) : Nat → HVal → Option Value
  | _, .prim p => some (.prim p)
  | 0, .ref _ => none
  | fuel + 1, .ref a =>
    match h[a]? with
    | none => none
    | some cells =>
      match readCells h fuel cells with
      | none => none
      | some fs => some (.obj fs)
termination_by fuel v => (fuel, 0)

/-- Read every property of a heap object. -/
def readCells (h : Heap) : Nat → List (String × HVal) → Option Fields
  | _, [] => some .fnil
  | fuel, (k, v) :: rest =>
    match readHVal h fuel v, readCells h fuel rest with
    | some vv, some fs => some (.fcons k vv fs)
    | _, _ => none
termination_by fuel cells => (fuel, cells.length + 1)
end

mutual
/-- Materialize a pure tree value on the heap, allocating fresh cells only
(the given heap is extended, never modified). -/
def storeVal (h : Heap) : Value → Heap × HVal
  | .prim p => (h, .prim p)
  | .obj fs =>
    ((storeFields h fs).1 ++ [(storeFields h fs).2], .ref (storeFields h fs).1.length)

/-- Materialize every field of an object, left to right. -/
def storeFields (h : Heap) : Fields → Heap × List (String × HVal)
  | .fnil => (h, [])
  | .fcons k v rest =>
    ((storeFields (storeVal h v).1 rest).1,
     (k, (storeVal h v).2) :: (storeFields (storeVal h v).1 rest).2)
end

/-- Overwrite or add one property of one object (a JS property assignment). -/
def setField : List (String × HVal) → String → HVal → List (String × HVal)
  | [], k, v => [(k, v)]
  | (k0, v0) :: rest, k, v =>
    if k0 = k then (k, v) :: rest else (k0, v0) :: setField rest k v

/-- A subscriber mutation: assign a property of the object at an address. -/
def writeField (h : Heap) (a : Nat) (k : String) (v : HVal) : Heap :=
  match h[a]? with
  | none => h
  | some cells => h.set a (setField cells k v)

/-- A whole sequence of subscriber mutations, applied in order. -/
def applyWrites (h : Heap) : List (Nat × String × HVal) → Heap
  | [] => h
  | (a, k, v) :: rest => applyWrites (writeField h a k v) rest

/-- Modelled from the spec: the deep structural clone used for every
snapshot handed to a subscriber or returned by getState.  It reads the full
value behind the handle and re-allocates it on fresh heap cells. -/
def cloneHVal (h : Heap) (s : HVal) : Heap × HVal :=
  match readHVal h h.length s with
  | none => (h, .prim .pnull)
  | some v => storeVal h v

/-- Whether a heap value only references addresses below n. -/
def valBound (n : Nat) : HVal → Bool
  | .prim _ => true
  | .ref a => a < n

def cellsBound (n : Nat) (cells : List (String × HVal)) : Bool :=
  cells.all fun kv => valBound n kv.2

/-- The first n cells of the heap only reference addresses below n. -/
def heapClosed (n : Nat) (h : Heap) : Bool :=
  (h.take n).all fun cells => cellsBound n cells

mutual
/-- Fuel needed to read a stored value back. -/
def vdepth : Value → Nat
  | .prim _ => 0
  | .obj fs => fieldsDepth fs + 1

def fieldsDepth : Fields → Nat
  | .fnil => 0
  | .fcons _ v rest => max (vdepth v) (fieldsDepth rest)
end

theorem valBound_mono (n m : Nat) (hm : n ≤ m) (v : HVal) (hv : valBound n v = true) :
    valBound m v = true := by
  cases v with
  | prim p => simp [valBound]
  | ref a => simp [valBound] at hv ⊢; omega

theorem cellsBound_mono (n m : Nat) (hm : n ≤ m) (cells : List (String × HVal))
    (hc : cellsBound n cells = true) : cellsBound m cells = true := by
  simp only [cellsBound, List.all_eq_true] at hc ⊢
  exact fun kv hkv => valBound_mono n m hm _ (hc kv hkv)

theorem heapClosed_cell (n : Nat) (h : Heap) (hc : heapClosed n h = true) (a : Nat)
    (ha : a < n) (cells : HObj) (hcell : h[a]? = some cells) : cellsBound n cells = true := by
  simp only [heapClosed, List.all_eq_true] at hc
  apply hc
  apply List.getElem?_mem (n := a)
  rw [List.getElem?_take]
  simp [ha, hcell]

/-- Reading a handle whose reachable cells all sit below n is insensitive to
any change of the heap beyond its first n cells. -/
theorem readStable (n : Nat) (h1 h2 : Heap) (hc : heapClosed n h1 = true)
    (hpre : h1.take n = h2.take n) (fuel : Nat) :
    (∀ v, valBound n v = true → readHVal h1 fuel v = readHVal h2 fuel v) ∧
    (∀ cells, cellsBound n cells = true →
      readCells h1 fuel cells = readCells h2 fuel cells) := by
  induction fuel with
  | zero =>
    constructor
    · intro v hv
      cases v with
      | prim p => simp [readHVal]
      | ref a => simp [readHVal]
    · intro cells hcl
      induction cells with
      | nil => simp [readCells]
      | cons kv rest ihc =>
        obtain ⟨k, v⟩ := kv
        simp only [cellsBound, List.all_cons, Bool.and_eq_true] at hcl
        have hv0 : readHVal h1 0 v = readHVal h2 0 v := by
          cases v with
          | prim p => simp [readHVal]
          | ref a => simp [readHVal]
        simp only [readCells]
        rw [hv0, ihc (by simpa [cellsBound] using hcl.2)]
  | succ fuel ih =>
    have hval : ∀ v, valBound n v = true → readHVal h1 (fuel + 1) v = readHVal h2 (fuel + 1) v := by
      intro v hv
      cases v with
      | prim p => simp [readHVal]
      | ref a =>
        have ha : a < n := by simpa [valBound] using hv
        have hget : h1[a]? = h2[a]? := by
          have e1 : (h1.take n)[a]? = h1[a]? := by rw [List.getElem?_take]; simp [ha]
          have e2 : (h2.take n)[a]? = h2[a]? := by rw [List.getElem?_take]; simp [ha]
          rw [← e1, ← e2, hpre]
        simp only [readHVal]
        rw [← hget]
        cases hcell : h1[a]? with
        | none => rfl
        | some cells =>
          have hb : cellsBound n cells = true := heapClosed_cell n h1 hc a ha cells hcell
          simp [ih.2 cells hb]
    refine ⟨hval, ?_⟩
    intro cells hcl
    induction cells with
    | nil => simp [readCells]
    | cons kv rest ihc =>
      obtain ⟨k, v⟩ := kv
      simp only [cellsBound, List.all_cons] at hcl
      rw [Bool.and_eq_true] at hcl
      simp only [readCells]
      rw [hval v hcl.1, ihc hcl.2]

mutual
theorem storeVal_append (h : Heap) : (v : Value) → ∃ ext, (storeVal h v).1 = h ++ ext
  | .prim p => ⟨[], by simp [storeVal]⟩
  | .obj fs => by
    obtain ⟨e1, he1⟩ := storeFields_append h fs
    exact ⟨e1 ++ [(storeFields h fs).2], by simp [storeVal, he1]⟩

theorem storeFields_append (h : Heap) : (fs : Fields) → ∃ ext, (storeFields h fs).1 = h ++ ext
  | .fnil => ⟨[], by simp [storeFields]⟩
  | .fcons k v rest => by
    obtain ⟨e1, he1⟩ := storeVal_append h v
    obtain ⟨e2, he2⟩ := storeFields_append (storeVal h v).1 rest
    refine ⟨e1 ++ e2, ?_⟩
    simp only [storeFields]
    rw [he2, he1, List.append_assoc]
end

theorem storeVal_le (h : Heap) (v : Value) : h.length ≤ (storeVal h v).1.length := by
  obtain ⟨ext, he⟩ := storeVal_append h v
  simp [he]

theorem storeFields_le (h : Heap) (fs : Fields) : h.length ≤ (storeFields h fs).1.length := by
  obtain ⟨ext, he⟩ := storeFields_append h fs
  simp [he]

theorem heapClosed_snoc (h : Heap) (cells : HObj)
    (hc : heapClosed h.length h = true) (hcell : cellsBound (h.length + 1) cells = true) :
    heapClosed (h ++ [cells]).length (h ++ [cells]) = true := by
  have hlen : (h ++ [cells]).length = h.length + 1 := by simp
  simp only [heapClosed, List.take_length, List.all_eq_true] at hc ⊢
  rw [hlen]
  intro c hm
  rw [List.mem_append] at hm
  rcases hm with hm | hm
  · exact cellsBound_mono h.length (h.length + 1) (by omega) c (hc c hm)
  · simp at hm
    rw [hm]
    exact hcell

mutual
theorem storeVal_closed (h : Heap) (hc : heapClosed h.length h = true) :
    (v : Value) → heapClosed (storeVal h v).1.length (storeVal h v).1 = true ∧
      valBound (storeVal h v).1.length (storeVal h v).2 = true
  | .prim p => ⟨by simpa [storeVal] using hc, by simp [storeVal, valBound]⟩
  | .obj fs => by
    obtain ⟨hcl, hbnd⟩ := storeFields_closed h hc fs
    constructor
    · simp only [storeVal]
      apply heapClosed_snoc
      · exact hcl
      · exact cellsBound_mono _ _ (by omega) _ hbnd
    · simp [storeVal, valBound]

theorem storeFields_closed (h : Heap) (hc : heapClosed h.length h = true) :
    (fs : Fields) → heapClosed (storeFields h fs).1.length (storeFields h fs).1 = true ∧
      cellsBound (storeFields h fs).1.length (storeFields h fs).2 = true
  | .fnil => ⟨by simpa [storeFields] using hc, by simp [storeFields, cellsBound]⟩
  | .fcons k v rest => by
    obtain ⟨hcl1, hbnd1⟩ := storeVal_closed h hc v
    obtain ⟨hcl2, hbnd2⟩ := storeFields_closed (storeVal h v).1 hcl1 rest
    refine ⟨by simpa [storeFields] using hcl2, ?_⟩
    simp only [storeFields, cellsBound, List.all_cons, Bool.and_eq_true]
    constructor
    · exact valBound_mono _ _ (storeFields_le (storeVal h v).1 rest) _ hbnd1
    · simpa [cellsBound] using hbnd2
end

mutual
theorem storeVal_read (h : Heap) (hc : heapClosed h.length h = true) :
    (v : Value) → ∀ fuel, vdepth v ≤ fuel →
      readHVal (storeVal h v).1 fuel (storeVal h v).2 = some v
  | .prim p => by intro fuel hf; simp [storeVal, readHVal]
  | .obj fs => by
    intro fuel hf
    match fuel, hf with
    | f + 1, hf =>
      have hdf : fieldsDepth fs ≤ f := by
        simp only [vdepth] at hf
        omega
      obtain ⟨hcl1, hbnd1⟩ := storeFields_closed h hc fs
      have hread : readCells (storeFields h fs).1 f (storeFields h fs).2 = some fs :=
        storeFields_read h hc fs f hdf
      have hstable :=
        (readStable (storeFields h fs).1.length (storeFields h fs).1
          ((storeFields h fs).1 ++ [(storeFields h fs).2]) hcl1
          (by rw [List.take_length, List.take_left]) f).2
          (storeFields h fs).2 hbnd1
      simp only [storeVal, readHVal]
      rw [List.getElem?_append_right (by omega)]
      simp only [Nat.sub_self, List.getElem?_cons_zero]
      rw [← hstable, hread]

theorem storeFields_read (h : Heap) (hc : heapClosed h.length h = true) :
    (fs : Fields) → ∀ fuel, fieldsDepth fs ≤ fuel →
      readCells (storeFields h fs).1 fuel (storeFields h fs).2 = some fs
  | .fnil => by intro fuel hf; simp [storeFields, readCells]
  | .fcons k v rest => by
    intro fuel hf
    simp only [fieldsDepth, Nat.max_le] at hf
    obtain ⟨hcl1, hbnd1⟩ := storeVal_closed h hc v
    have hv : readHVal (storeVal h v).1 fuel (storeVal h v).2 = some v :=
      storeVal_read h hc v fuel hf.1
    have hrest : readCells (storeFields (storeVal h v).1 rest).1 fuel
        (storeFields (storeVal h v).1 rest).2 = some rest :=
      storeFields_read (storeVal h v).1 hcl1 rest fuel hf.2
    obtain ⟨e2, he2⟩ := storeFields_append (storeVal h v).1 rest
    have hstable :=
      (readStable (storeVal h v).1.length (storeVal h v).1
        (storeFields (storeVal h v).1 rest).1 hcl1
        (by rw [List.take_length, he2, List.take_left]) fuel).1
        (storeVal h v).2 hbnd1
    simp only [storeFields, readCells]
    rw [← hstable, hv, hrest]
end

/-- Truncating below an assignment index is unaffected by the assignment. -/
theorem take_set_le (l : Heap) (n a : Nat) (hna : n ≤ a) (x : HObj) :
    (l.set a x).take n = l.take n := by
  induction l generalizing n a with
  | nil => simp
  | cons hd tl ih =>
    cases a with
    | zero =>
      have hn : n = 0 := Nat.le_zero.mp hna
      subst hn
      simp
    | succ a2 =>
      cases n with
      | zero => simp
      | succ n2 =>
        simp only [List.set_cons_succ, List.take_succ_cons]
        rw [ih n2 a2 (by omega)]

theorem take_writeField (h : Heap) (n a : Nat) (k : String) (v : HVal) (hna : n ≤ a) :
    (writeField h a k v).take n = h.take n := by
  unfold writeField
  cases hcell : h[a]? with
  | none => rfl
  | some cells => exact take_set_le h n a hna (setField cells k v)

theorem take_applyWrites (n : Nat) (ws : List (Nat × String × HVal)) (h : Heap)
    (hw : ∀ w ∈ ws, n ≤ w.1) : (applyWrites h ws).take n = h.take n := by
  induction ws generalizing h with
  | nil => simp [applyWrites]
  | cons w rest ih =>
    obtain ⟨a, k, v⟩ := w
    simp only [applyWrites]
    rw [ih (writeField h a k v) (fun w2 hm => hw w2 (List.mem_cons_of_mem _ hm)),
      take_writeField h n a k v (hw (a, k, v) (List.mem_cons_self _ _))]

/-- Claim C1: for every defined endpoint and every refetch whose producer
resolves with value v at time now, the post-state is data = v,
isLoading = false, isError = false, error cleared and lastUpdated = now,
and the cache entry stored under the endpoint's prefixed key parses back to
exactly that data and timestamp. -/
theorem refetch_success_state_and_cache
    (core : QueryCore) (key : String) (v : Value) (now fresh : Nat) (b : CacheBackend)
    (r : EndpointRecord) (hr : lookupEp core.endpoints key = some r)
    (hif : r.inFlight = none) (hb : b.failing = false) :
    getState (refetch core key (.success v) now fresh b).1 key =
      ⟨some v, some now, false, false, none⟩ ∧
    (provGet (refetch core key (.success v) now fresh b).2.1 (prefixedKey key)).bind
      parseEntry = some ⟨v, now⟩ := by
  simp only [refetch, refetchStart, hr, hif]
  simp only [refetchComplete, lookupEp_setEp_self, getState, provSet, rawSet, hb,
    provGet, rawGet, if_false, Bool.false_eq_true, ite_false]
  simp [storeLookup_insert_self, parseEntry_encodeEntry, lookupEp_setEp_self]

theorem refetch_success_state_and_cache_witness :
    lookupEp [("u", (⟨0, ⟨none, none⟩, .memory, initialState, [], none⟩ : EndpointRecord))] "u" =
      some ⟨0, ⟨none, none⟩, .memory, initialState, [], none⟩ ∧
    getState
      (refetch
        (⟨defaultQueryCoreOptions,
          [("u", ⟨0, ⟨none, none⟩, .memory, initialState, [], none⟩)]⟩)
        "u" (.success (.prim (.pnum 2))) 5 0 ⟨[], false⟩).1 "u" =
      ⟨some (.prim (.pnum 2)), some 5, false, false, none⟩ := by
  refine ⟨rfl, ?_⟩
  exact (refetch_success_state_and_cache
    (⟨defaultQueryCoreOptions,
      [("u", ⟨0, ⟨none, none⟩, .memory, initialState, [], none⟩)]⟩)
    "u" (.prim (.pnum 2)) 5 0 ⟨[], false⟩ _ rfl rfl rfl).1

/-- Claim C2: for every defined endpoint refetch is total and resolves even
when the producer fails; on failure the post-state has isError = true, the
producer's error set, isLoading = false, while data and lastUpdated keep
their previous values (stale-while-error), and the cache backend is left
exactly as it was.  Totality witnesses that the returned promise never
rejects: the model's refetch is a total function also on the failure
branch. -/
theorem refetch_failure_stale_while_error
    (core : QueryCore) (key e : String) (now fresh : Nat) (b : CacheBackend)
    (r : EndpointRecord) (hr : lookupEp core.endpoints key = some r)
    (hif : r.inFlight = none) :
    getState (refetch core key (.failure e) now fresh b).1 key =
      ⟨r.state.data, r.state.lastUpdated, false, true, some e⟩ ∧
    (refetch core key (.failure e) now fresh b).2.1 = b := by
  simp only [refetch, refetchStart, hr, hif]
  simp [refetchComplete, lookupEp_setEp_self, getState]

theorem refetch_failure_stale_while_error_witness :
    lookupEp
      [("u", (⟨0, ⟨none, none⟩, .memory,
        ⟨some (.prim (.pnum 7)), some 3, false, false, none⟩, [], none⟩ : EndpointRecord))]
      "u" =
      some ⟨0, ⟨none, none⟩, .memory,
        ⟨some (.prim (.pnum 7)), some 3, false, false, none⟩, [], none⟩ ∧
    getState
      (refetch
        (⟨defaultQueryCoreOptions,
          [("u", ⟨0, ⟨none, none⟩, .memory,
            ⟨some (.prim (.pnum 7)), some 3, false, false, none⟩, [], none⟩)]⟩)
        "u" (.failure "boom") 9 0 ⟨[], false⟩).1 "u" =
      ⟨some (.prim (.pnum 7)), some 3, false, true, some "boom"⟩ := by
  refine ⟨rfl, ?_⟩
  exact (refetch_failure_stale_while_error
    (⟨defaultQueryCoreOptions,
      [("u", ⟨0, ⟨none, none⟩, .memory,
        ⟨some (.prim (.pnum 7)), some 3, false, false, none⟩, [], none⟩)]⟩)
    "u" "boom" 9 0 ⟨[], false⟩ _ rfl rfl).1

/-- Claim C8: every cache provider fails soft: with a failing backend, get
resolves to a miss and set and remove resolve leaving the store untouched;
and a failed cache write after a successful production never surfaces, the
in-memory state still carries the new data with isError = false and the
refetch completes normally. -/
theorem cache_provider_fail_soft
    (b : CacheBackend) (hfail : b.failing = true)
    (core : QueryCore) (key : String) (v : Value) (now fresh : Nat)
    (r : EndpointRecord) (hr : lookupEp core.endpoints key = some r)
    (hif : r.inFlight = none) :
    (∀ k, provGet b k = none) ∧
    (∀ k w, provSet b k w = b) ∧
    (∀ k, provRemove b k = b) ∧
    getState (refetch core key (.success v) now fresh b).1 key =
      ⟨some v, some now, false, false, none⟩ ∧
    (refetch core key (.success v) now fresh b).2.1 = b := by
  refine ⟨?_, ?_, ?_, ?_, ?_⟩
  · intro k; simp [provGet, rawGet, hfail]
  · intro k w; simp [provSet, rawSet, hfail]
  · intro k; simp [provRemove, rawRemove, hfail]
  · simp only [refetch, refetchStart, hr, hif]
    simp [refetchComplete, lookupEp_setEp_self, getState]
  · simp only [refetch, refetchStart, hr, hif]
    simp [refetchComplete, lookupEp_setEp_self, provSet, rawSet, hfail]

theorem cache_provider_fail_soft_witness :
    (⟨[], true⟩ : CacheBackend).failing = true ∧
    getState
      (refetch
        (⟨defaultQueryCoreOptions,
          [("u", ⟨0, ⟨none, none⟩, .memory, initialState, [], none⟩)]⟩)
        "u" (.success (.prim (.pnum 4))) 6 0 ⟨[], true⟩).1 "u" =
      ⟨some (.prim (.pnum 4)), some 6, false, false, none⟩ := by
  refine ⟨rfl, ?_⟩
  exact (cache_provider_fail_soft ⟨[], true⟩ rfl
    (⟨defaultQueryCoreOptions,
      [("u", ⟨0, ⟨none, none⟩, .memory, initialState, [], none⟩)]⟩)
    "u" (.prim (.pnum 4)) 6 0 _ rfl rfl).2.2.2.1

/-- Claim C9, counterexample: the option value set claimed by the spec does
not match the code: the accepted string for the transactional object-store
provider is "indexedDB" (as the test suite passes and checks), while
"localKV" and "objectStore" are not accepted values. -/
theorem provider_option_strings_counterexample :
    parseCacheProviderName "indexedDB" = some CacheProviderName.indexedDB ∧
    parseCacheProviderName "localStorage" = some CacheProviderName.localStorage ∧
    parseCacheProviderName "localKV" = none ∧
    parseCacheProviderName "objectStore" = none := by
  refine ⟨?_, ?_, ?_, ?_⟩ <;> rfl

/-- Claim C9, amended: the cacheProvider option accepts exactly the values
"memory", "localStorage" and "indexedDB", and when no cacheProvider is
given anywhere the resolved provider is the memory provider and no
automatic staleness applies (the effective staleness window is absent, so a
record holding data is never stale). -/
theorem provider_option_strings_amended :
    (∀ s : String, (parseCacheProviderName s).isSome = true ↔
      (s = "memory" ∨ s = "localStorage" ∨ s = "indexedDB")) ∧
    resolveProvider (newQueryCore defaultQueryCoreOptions) ⟨none, none⟩ =
      CacheProviderName.memory ∧
    (∀ r : EndpointRecord, r.options.refetchAfter = none →
      effRefetchAfter (newQueryCore defaultQueryCoreOptions) r = none) ∧
    (∀ (now : Nat) (st : EndpointState) (d : Value), st.data = some d →
      isStale now none st = false) := by
  refine ⟨?_, rfl, ?_, ?_⟩
  · intro s
    constructor
    · intro hs
      unfold parseCacheProviderName at hs
      split at hs
      · left; rfl
      · right; left; rfl
      · right; right; rfl
      · simp at hs
    · rintro (h | h | h) <;> subst h <;> rfl
  · intro r hra
    simp [effRefetchAfter, hra, newQueryCore, defaultQueryCoreOptions]
  · intro now st d hd
    simp [isStale, hd]

theorem provider_option_strings_amended_witness :
    ((⟨0, ⟨none, none⟩, .memory, initialState, [], none⟩ : EndpointRecord)).options.refetchAfter =
      none ∧
    (⟨some (.prim .pnull), some 0, false, false, none⟩ : EndpointState).data =
      some (.prim .pnull) ∧
    (parseCacheProviderName "memory").isSome = true ∧
    isStale 100 none ⟨some (.prim .pnull), some 0, false, false, none⟩ = false := by
  refine ⟨rfl, rfl, ?_, ?_⟩
  · exact (provider_option_strings_amended.1 "memory").mpr (Or.inl rfl)
  · exact provider_option_strings_amended.2.2.2 100
      ⟨some (.prim .pnull), some 0, false, false, none⟩ (.prim .pnull) rfl

/-- Claim C10: defining an endpoint without per-endpoint options on a core
constructed without options stores a record whose merged options leave both
cacheProvider and refetchAfter absent; core defaults are not materialized
into the record, they apply only at provider resolution (the record's
resolved provider is memory) and staleness evaluation (effRefetchAfter
falls back to the construction default exactly when the record has none). -/
theorem define_default_options_not_materialized
    (key : String) (fid : Nat) (b : CacheBackend) :
    (lookupEp
        (defineEndpoint (newQueryCore defaultQueryCoreOptions) key fid ⟨none, none⟩ b).1.endpoints
        key).map (fun r => r.options) = some ⟨none, none⟩ ∧
    (lookupEp
        (defineEndpoint (newQueryCore defaultQueryCoreOptions) key fid ⟨none, none⟩ b).1.endpoints
        key).map (fun r => r.provider) = some CacheProviderName.memory ∧
    (∀ (core : QueryCore) (r : EndpointRecord), r.options.refetchAfter = none →
      effRefetchAfter core r = core.options.defaultRefetchAfter) := by
  refine ⟨?_, ?_, ?_⟩
  · simp [defineEndpoint, newQueryCore, lookupEp, setEp, resolveProvider,
      defaultQueryCoreOptions]
  · simp [defineEndpoint, newQueryCore, lookupEp, setEp, resolveProvider,
      defaultQueryCoreOptions]
  · intro core r hra
    simp [effRefetchAfter, hra]

theorem define_default_options_not_materialized_witness :
    ((⟨0, ⟨none, some 7⟩, .memory, initialState, [], none⟩ : EndpointRecord)).options.refetchAfter =
      some 7 ∧
    (lookupEp
        (defineEndpoint (newQueryCore defaultQueryCoreOptions) "todos" 3 ⟨none, none⟩
          ⟨[], false⟩).1.endpoints
        "todos").map (fun r => r.options) = some ⟨none, none⟩ := by
  exact ⟨rfl, (define_default_options_not_materialized "todos" 3 ⟨[], false⟩).1⟩

/-- Claim C4: for a fresh key, defineEndpoint performs exactly one cache
read and never invokes the producer; a hit with valid shape hydrates the
state from the entry, a miss leaves the empty initial state; and repeating
the call with identical parameters is idempotent modulo the hydration
attempt (the resulting core is unchanged). -/
theorem define_hydrates_once_no_fetch
    (core : QueryCore) (key : String) (fid : Nat) (opts : EndpointOptions) (b : CacheBackend)
    (hnew : lookupEp core.endpoints key = none) :
    (defineEndpoint core key fid opts b).2 = [Event.cacheRead (prefixedKey key)] ∧
    (∀ k2, countProducerCalls k2 (defineEndpoint core key fid opts b).2 = 0) ∧
    (∀ en : CacheEntry, (provGet b (prefixedKey key)).bind parseEntry = some en →
      getState (defineEndpoint core key fid opts b).1 key =
        ⟨some en.data, some en.lastUpdated, false, false, none⟩) ∧
    ((provGet b (prefixedKey key)).bind parseEntry = none →
      getState (defineEndpoint core key fid opts b).1 key = initialState) ∧
    (defineEndpoint (defineEndpoint core key fid opts b).1 key fid opts b).1 =
      (defineEndpoint core key fid opts b).1 := by
  refine ⟨by simp [defineEndpoint], ?_, ?_, ?_, ?_⟩
  · intro k2
    simp [defineEndpoint, countProducerCalls]
  · intro en hen
    simp [defineEndpoint, hnew, getState, lookupEp_setEp_self, hydrateState, hen]
  · intro hen
    simp [defineEndpoint, hnew, getState, lookupEp_setEp_self, hydrateState, hen]
  · have hopt : resolveProvider
        ⟨core.options, setEp core.endpoints key
          ⟨fid, opts, resolveProvider core opts, hydrateState b key, [], none⟩⟩ opts =
        resolveProvider core opts := rfl
    simp only [defineEndpoint, hnew, lookupEp_setEp_self, hopt]
    rw [setEp_lookupEp_eq _ _ _ (lookupEp_setEp_self _ _ _)]

theorem define_hydrates_once_no_fetch_witness :
    lookupEp (newQueryCore defaultQueryCoreOptions).endpoints "user" = none ∧
    getState
      (defineEndpoint (newQueryCore defaultQueryCoreOptions) "user" 1 ⟨none, none⟩
        ⟨[("QueryCore_user", encodeEntry ⟨.prim (.pnum 9), 42⟩)], false⟩).1 "user" =
      ⟨some (.prim (.pnum 9)), some 42, false, false, none⟩ := by
  refine ⟨rfl, ?_⟩
  exact (define_hydrates_once_no_fetch (newQueryCore defaultQueryCoreOptions) "user" 1
    ⟨none, none⟩ ⟨[("QueryCore_user", encodeEntry ⟨.prim (.pnum 9), 42⟩)], false⟩
    rfl).2.2.1 ⟨.prim (.pnum 9), 42⟩ (by rfl)

theorem isStale_iff (now : Nat) (w : Option Nat) (st : EndpointState) :
    isStale now w st = true ↔
      (st.data = none ∨
        ∃ ra lu, w = some ra ∧ st.lastUpdated = some lu ∧ ra ≤ now - lu) := by
  unfold isStale
  cases hd : st.data with
  | none => simp
  | some d =>
    cases w with
    | none => simp [hd]
    | some ra =>
      cases hlu : st.lastUpdated with
      | none => simp [hd, hlu]
      | some lu => simp [hd, hlu]

/-- Claim C5: a subscribe call schedules a refetch exactly when the record
is stale (data undefined, or a staleness window is in force and at least
that much time has passed since lastUpdated) and no production is in
flight; subscribing to a fresh endpoint delivers only the synchronous
snapshot, with no producer invocation and no loading notification. -/
theorem subscribe_schedules_iff_stale
    (core : QueryCore) (key : String) (l now fresh : Nat)
    (r : EndpointRecord) (hr : lookupEp core.endpoints key = some r) :
    ((subscribe core key l now).scheduledRefetch = true ↔
      ((r.state.data = none ∨
          ∃ ra lu, effRefetchAfter core r = some ra ∧ r.state.lastUpdated = some lu ∧
            ra ≤ now - lu) ∧
        r.inFlight = none)) ∧
    (subscribe core key l now).events = [Event.notify l r.state] ∧
    ((subscribe core key l now).scheduledRefetch = false →
      (subscribeFlow core key l now fresh).2 = [Event.notify l r.state]) ∧
    ((subscribe core key l now).scheduledRefetch = false → r.state.isLoading = false →
      countLoadingNotifies l (subscribeFlow core key l now fresh).2 = 0 ∧
      countProducerCalls key (subscribeFlow core key l now fresh).2 = 0) := by
  have hev : (subscribe core key l now).events = [Event.notify l r.state] := by
    simp [subscribe, hr]
  have hflowgen : (subscribe core key l now).scheduledRefetch = false →
      (subscribeFlow core key l now fresh).2 = [Event.notify l r.state] := by
    intro hsched
    have hcond : (isStale now (effRefetchAfter core r) r.state && r.inFlight.isNone) = false := by
      simpa [subscribe, hr] using hsched
    have hnot : ¬(isStale now (effRefetchAfter core r) r.state = true ∧ r.inFlight = none) := by
      intro hcon
      rw [hcon.1, hcon.2] at hcond
      simp at hcond
    simp [subscribeFlow, subscribe, hr, hnot]
  refine ⟨?_, hev, hflowgen, ?_⟩
  · simp only [subscribe, hr]
    rw [Bool.and_eq_true, Option.isNone_iff_eq_none, isStale_iff]
  · intro hsched hload
    rw [hflowgen hsched]
    simp [countLoadingNotifies, countProducerCalls, hload]

theorem subscribe_schedules_iff_stale_witness :
    lookupEp
      [("u", (⟨0, ⟨none, some 100⟩, .memory,
        ⟨some (.prim (.pnum 1)), some 10, false, false, none⟩, [], none⟩ : EndpointRecord))]
      "u" =
      some ⟨0, ⟨none, some 100⟩, .memory,
        ⟨some (.prim (.pnum 1)), some 10, false, false, none⟩, [], none⟩ ∧
    (subscribe
      (⟨defaultQueryCoreOptions,
        [("u", ⟨0, ⟨none, some 100⟩, .memory,
          ⟨some (.prim (.pnum 1)), some 10, false, false, none⟩, [], none⟩)]⟩)
      "u" 7 50).scheduledRefetch = false ∧
    countProducerCalls "u"
      (subscribeFlow
        (⟨defaultQueryCoreOptions,
          [("u", ⟨0, ⟨none, some 100⟩, .memory,
            ⟨some (.prim (.pnum 1)), some 10, false, false, none⟩, [], none⟩)]⟩)
        "u" 7 50 99).2 = 0 := by
  refine ⟨rfl, rfl, ?_⟩
  exact ((subscribe_schedules_iff_stale
    (⟨defaultQueryCoreOptions,
      [("u", ⟨0, ⟨none, some 100⟩, .memory,
        ⟨some (.prim (.pnum 1)), some 10, false, false, none⟩, [], none⟩)]⟩)
    "u" 7 50 99 _ rfl).2.2.2 rfl rfl).2

theorem refetchStart_coalesces (core : QueryCore) (key : String) (f p : Nat)
    (r : EndpointRecord) (hr : lookupEp core.endpoints key = some r)
    (hif : r.inFlight = some p) :
    refetchStart core key f = ⟨core, [], some p, false⟩ := by
  simp [refetchStart, hr, hif]

theorem iterateStarts_coalesced (core : QueryCore) (key : String) (p : Nat)
    (r : EndpointRecord) (hr : lookupEp core.endpoints key = some r)
    (hif : r.inFlight = some p) (n : Nat) :
    iterateStarts core key n = (core, [], List.replicate n (some p)) := by
  induction n with
  | zero => simp [iterateStarts]
  | succ m ih =>
    simp [iterateStarts, refetchStart_coalesces core key _ p r hr hif, ih,
      List.replicate_succ]

/-- Claim C3: while a production is in flight every further refetch call on
the key is handed the same in-flight promise and triggers nothing; over a
whole coalesced group of N+1 concurrent calls the producer is invoked
exactly once and each (distinct) subscriber receives exactly one loading
notification followed by exactly one completion notification. -/
theorem coalescing_single_producer
    (core : QueryCore) (key : String) (n : Nat) (result : ProducerResult)
    (now fresh : Nat) (b : CacheBackend) (l : Nat)
    (r : EndpointRecord) (hr : lookupEp core.endpoints key = some r)
    (hif : r.inFlight = none) (hmem : l ∈ r.listeners) (hnd : r.listeners.Nodup) :
    (concurrentRefetch core key n result now fresh b).2.2.2 =
      List.replicate n (some fresh) ∧
    countProducerCalls key (concurrentRefetch core key n result now fresh b).2.2.1 = 1 ∧
    (∃ pre post,
      (concurrentRefetch core key n result now fresh b).2.2.1 = pre ++ post ∧
      countLoadingNotifies l pre = 1 ∧ countSettledNotifies l pre = 0 ∧
      countLoadingNotifies l post = 0 ∧ countSettledNotifies l post = 1) := by
  have hcount : r.listeners.count l = 1 := List.count_eq_one_of_mem hnd hmem
  have hstart : refetchStart core key fresh =
      ⟨⟨core.options, setEp core.endpoints key
          { r with state := { r.state with isLoading := true }, inFlight := some fresh }⟩,
        notifyAll r.listeners { r.state with isLoading := true } ++ [Event.producerCall key],
        some fresh, true⟩ := by
    simp [refetchStart, hr, hif]
  have hlookL : lookupEp (setEp core.endpoints key
      { r with state := { r.state with isLoading := true }, inFlight := some fresh }) key =
      some { r with state := { r.state with isLoading := true }, inFlight := some fresh } :=
    lookupEp_setEp_self _ _ _
  have hiter : iterateStarts
      ⟨core.options, setEp core.endpoints key
        { r with state := { r.state with isLoading := true }, inFlight := some fresh }⟩
      key n =
      (⟨core.options, setEp core.endpoints key
        { r with state := { r.state with isLoading := true }, inFlight := some fresh }⟩,
       [], List.replicate n (some fresh)) :=
    iterateStarts_coalesced _ key fresh _ hlookL rfl n
  cases result with
  | success v =>
    simp only [concurrentRefetch, hstart, hiter, refetchComplete, hlookL]
    refine ⟨by trivial, ?_, ?_⟩
    · simp [countProducerCalls_append, countProducerCalls_notifyAll, countProducerCalls]
    · refine ⟨notifyAll r.listeners { r.state with isLoading := true } ++
          [Event.producerCall key],
        Event.cacheWrite (prefixedKey key) (encodeEntry ⟨v, now⟩) ::
          notifyAll r.listeners ⟨some v, some now, false, false, none⟩,
        by simp, ?_, ?_, ?_, ?_⟩
      · simp [countLoadingNotifies_append, countLoadingNotifies_notifyAll,
          countLoadingNotifies, hcount]
      · simp [countSettledNotifies_append, countSettledNotifies_notifyAll,
          countSettledNotifies]
      · simp [countLoadingNotifies, countLoadingNotifies_notifyAll]
      · simp [countSettledNotifies, countSettledNotifies_notifyAll, hcount]
  | failure e =>
    simp only [concurrentRefetch, hstart, hiter, refetchComplete, hlookL]
    refine ⟨by trivial, ?_, ?_⟩
    · simp [countProducerCalls_append, countProducerCalls_notifyAll, countProducerCalls]
    · refine ⟨notifyAll r.listeners { r.state with isLoading := true } ++
          [Event.producerCall key],
        notifyAll r.listeners
          { r.state with isLoading := false, isError := true, error := some e },
        by simp, ?_, ?_, ?_, ?_⟩
      · simp [countLoadingNotifies_append, countLoadingNotifies_notifyAll,
          countLoadingNotifies, hcount]
      · simp [countSettledNotifies_append, countSettledNotifies_notifyAll,
          countSettledNotifies]
      · simp [countLoadingNotifies_notifyAll]
      · simp [countSettledNotifies_notifyAll, hcount]

theorem coalescing_single_producer_witness :
    (2 : Nat) ∈ [2] ∧ ([2] : List Nat).Nodup ∧
    countProducerCalls "u"
      (concurrentRefetch
        (⟨defaultQueryCoreOptions,
          [("u", ⟨0, ⟨none, none⟩, .memory, initialState, [2], none⟩)]⟩)
        "u" 3 (.success (.prim (.pnum 1))) 4 17 ⟨[], false⟩).2.2.1 = 1 ∧
    (concurrentRefetch
        (⟨defaultQueryCoreOptions,
          [("u", ⟨0, ⟨none, none⟩, .memory, initialState, [2], none⟩)]⟩)
        "u" 3 (.success (.prim (.pnum 1))) 4 17 ⟨[], false⟩).2.2.2 =
      List.replicate 3 (some 17) := by
  have h := coalescing_single_producer
    (⟨defaultQueryCoreOptions,
      [("u", ⟨0, ⟨none, none⟩, .memory, initialState, [2], none⟩)]⟩)
    "u" 3 (.success (.prim (.pnum 1))) 4 17 ⟨[], false⟩ 2 _ rfl rfl
    (by decide) (by decide)
  exact ⟨by decide, by decide, h.2.1, h.1⟩

theorem refetchStart_other_key (core : QueryCore) (k2 k : String) (f : Nat) (hne : k2 ≠ k) :
    lookupEp (refetchStart core k2 f).core.endpoints k = lookupEp core.endpoints k ∧
    countProducerCalls k (refetchStart core k2 f).events = 0 := by
  cases hl : lookupEp core.endpoints k2 with
  | none => simp [refetchStart, hl, countProducerCalls]
  | some r =>
    cases hif : r.inFlight with
    | some p => simp [refetchStart, hl, hif, countProducerCalls]
    | none =>
      simp [refetchStart, hl, hif, lookupEp_setEp_ne _ k2 k _ hne,
        countProducerCalls_append, countProducerCalls_notifyAll, countProducerCalls, hne]

theorem refetchKeys_other (k : String) :
    ∀ (ks : List String), k ∉ ks → ∀ (core : QueryCore) (base : Nat),
      lookupEp (refetchKeys core base ks).1.endpoints k = lookupEp core.endpoints k ∧
      countProducerCalls k (refetchKeys core base ks).2 = 0 := by
  intro ks
  induction ks with
  | nil => intro _ core base; simp [refetchKeys, countProducerCalls]
  | cons k2 rest ih =>
    intro hk core base
    have hne : k2 ≠ k := by
      intro he
      subst he
      exact hk (List.mem_cons_self _ _)
    have hrest : k ∉ rest := fun hm => hk (List.mem_cons_of_mem _ hm)
    have h1 := refetchStart_other_key core k2 k base hne
    have h2 := ih hrest (refetchStart core k2 base).core (base + 1)
    constructor
    · simp only [refetchKeys]
      rw [h2.1, h1.1]
    · simp only [refetchKeys, countProducerCalls_append]
      rw [h2.2, h1.2]

theorem mem_filteredKeys_iff (core : QueryCore) (p : String × EndpointRecord → Bool)
    (key : String) (r : EndpointRecord)
    (hnd : (core.endpoints.map Prod.fst).Nodup) (hr : lookupEp core.endpoints key = some r) :
    key ∈ (core.endpoints.filter p).map Prod.fst ↔ p (key, r) = true := by
  constructor
  · intro hm
    rw [List.mem_map] at hm
    obtain ⟨kv, hkv, hfst⟩ := hm
    rw [List.mem_filter] at hkv
    obtain ⟨hmem, hp⟩ := hkv
    obtain ⟨a, b⟩ := kv
    simp only at hfst
    subst hfst
    have hl := lookupEp_of_mem_nodup _ _ _ hnd hmem
    rw [hr] at hl
    injection hl with hl
    rw [hl]
    exact hp
  · intro hp
    have hmem := mem_of_lookupEp _ _ _ hr
    exact List.mem_map_of_mem Prod.fst (List.mem_filter.mpr ⟨hmem, hp⟩)

/-- Claim C7: background refresh touches exactly the eligible observed
endpoints: a key is refetched on visibility or focus exactly when its
record has a listener and is stale, so a fresh observed endpoint keeps its
record (in particular its lastUpdated) and sees no producer call; a key is
refetched on the online event exactly when observed, regardless of
staleness; and an endpoint with no listeners is untouched by either
handler. -/
theorem background_refresh_eligibility
    (core : QueryCore) (now base : Nat) (key : String) (r : EndpointRecord)
    (hnd : (core.endpoints.map Prod.fst).Nodup)
    (hr : lookupEp core.endpoints key = some r) :
    (key ∈ focusKeys core now ↔
      (r.listeners.isEmpty = false ∧
        isStale now (effRefetchAfter core r) r.state = true)) ∧
    (key ∈ onlineKeys core ↔ r.listeners.isEmpty = false) ∧
    (isStale now (effRefetchAfter core r) r.state = false →
      lookupEp (handleFocus core now base).1.endpoints key = some r ∧
      countProducerCalls key (handleFocus core now base).2 = 0) ∧
    (r.listeners = [] →
      lookupEp (handleFocus core now base).1.endpoints key = some r ∧
      countProducerCalls key (handleFocus core now base).2 = 0 ∧
      lookupEp (handleOnline core base).1.endpoints key = some r ∧
      countProducerCalls key (handleOnline core base).2 = 0) := by
  have hfocus : key ∈ focusKeys core now ↔
      (r.listeners.isEmpty = false ∧
        isStale now (effRefetchAfter core r) r.state = true) := by
    unfold focusKeys
    rw [mem_filteredKeys_iff core _ key r hnd hr]
    simp [Bool.and_eq_true, Bool.not_eq_true']
  have honline : key ∈ onlineKeys core ↔ r.listeners.isEmpty = false := by
    unfold onlineKeys
    rw [mem_filteredKeys_iff core _ key r hnd hr]
    simp [Bool.not_eq_true']
  refine ⟨hfocus, honline, ?_, ?_⟩
  · intro hfresh
    have hnot : key ∉ focusKeys core now := by
      rw [hfocus]
      intro hcon
      rw [hcon.2] at hfresh
      simp at hfresh
    have h := refetchKeys_other key (focusKeys core now) hnot core base
    exact ⟨by rw [handleFocus, h.1, hr], by rw [handleFocus]; exact h.2⟩
  · intro hempty
    have he : r.listeners.isEmpty = true := by rw [hempty]; rfl
    have hnotf : key ∉ focusKeys core now := by
      rw [hfocus]
      intro hcon
      rw [he] at hcon
      exact absurd hcon.1 (by simp)
    have hnoto : key ∉ onlineKeys core := by
      rw [honline]
      intro hcon
      rw [he] at hcon
      exact absurd hcon (by simp)
    have h1 := refetchKeys_other key (focusKeys core now) hnotf core base
    have h2 := refetchKeys_other key (onlineKeys core) hnoto core base
    exact ⟨by rw [handleFocus, h1.1, hr], by rw [handleFocus]; exact h1.2,
      by rw [handleOnline, h2.1, hr], by rw [handleOnline]; exact h2.2⟩

theorem background_refresh_eligibility_witness :
    lookupEp
      [("fresh", (⟨0, ⟨none, some 10000⟩, .memory,
          ⟨some (.prim (.pnum 1)), some 0, false, false, none⟩, [1], none⟩ : EndpointRecord)),
       ("stale", ⟨1, ⟨none, some 100⟩, .memory,
          ⟨some (.prim (.pnum 2)), some 0, false, false, none⟩, [2], none⟩)]
      "fresh" =
      some ⟨0, ⟨none, some 10000⟩, .memory,
        ⟨some (.prim (.pnum 1)), some 0, false, false, none⟩, [1], none⟩ ∧
    lookupEp
      (handleFocus
        (⟨defaultQueryCoreOptions,
          [("fresh", ⟨0, ⟨none, some 10000⟩, .memory,
              ⟨some (.prim (.pnum 1)), some 0, false, false, none⟩, [1], none⟩),
           ("stale", ⟨1, ⟨none, some 100⟩, .memory,
              ⟨some (.prim (.pnum 2)), some 0, false, false, none⟩, [2], none⟩)]⟩)
        500 50).1.endpoints "fresh" =
      some ⟨0, ⟨none, some 10000⟩, .memory,
        ⟨some (.prim (.pnum 1)), some 0, false, false, none⟩, [1], none⟩ ∧
    countProducerCalls "fresh"
      (handleFocus
        (⟨defaultQueryCoreOptions,
          [("fresh", ⟨0, ⟨none, some 10000⟩, .memory,
              ⟨some (.prim (.pnum 1)), some 0, false, false, none⟩, [1], none⟩),
           ("stale", ⟨1, ⟨none, some 100⟩, .memory,
              ⟨some (.prim (.pnum 2)), some 0, false, false, none⟩, [2], none⟩)]⟩)
        500 50).2 = 0 := by
  have h := (background_refresh_eligibility
    (⟨defaultQueryCoreOptions,
      [("fresh", ⟨0, ⟨none, some 10000⟩, .memory,
          ⟨some (.prim (.pnum 1)), some 0, false, false, none⟩, [1], none⟩),
       ("stale", ⟨1, ⟨none, some 100⟩, .memory,
          ⟨some (.prim (.pnum 2)), some 0, false, false, none⟩, [2], none⟩)]⟩)
    500 50 "fresh" _ (by decide) rfl).2.2.1 rfl
  exact ⟨rfl, h.1, h.2⟩

/-- Claim C6: every snapshot delivered to a subscriber or returned by
getState is a deep clone isolated from the core's internal state.  On a
well-formed heap whose first cells hold the core's state behind handle s,
the clone allocates only fresh cells (addresses at or past the old heap
length), the subscriber receives exactly the state value v, and after any
sequence of mutations of those fresh cells (any property, any depth of the
received object) reading the core's own handle still yields the
pre-mutation snapshot v. -/
theorem subscriber_mutation_isolation
    (h : Heap) (s : HVal) (ws : List (Nat × String × HVal)) (v : Value) (f : Nat)
    (hc : heapClosed h.length h = true) (hb : valBound h.length s = true)
    (hw : ∀ w ∈ ws, h.length ≤ w.1)
    (hv : readHVal h h.length s = some v) (hf : vdepth v ≤ f) :
    readHVal (cloneHVal h s).1 f (cloneHVal h s).2 = some v ∧
    readHVal (applyWrites (cloneHVal h s).1 ws) h.length s = some v := by
  have hclone : cloneHVal h s = storeVal h v := by simp [cloneHVal, hv]
  constructor
  · rw [hclone]
    exact storeVal_read h hc v f hf
  · rw [hclone]
    obtain ⟨ext, hext⟩ := storeVal_append h v
    have htake1 : (storeVal h v).1.take h.length = h.take h.length := by
      rw [hext, List.take_left, List.take_length]
    have htake2 : (applyWrites (storeVal h v).1 ws).take h.length =
        (storeVal h v).1.take h.length :=
      take_applyWrites h.length ws _ hw
    have hstable := (readStable h.length h (applyWrites (storeVal h v).1 ws) hc
      (by rw [htake2, htake1]) h.length).1 s hb
    rw [← hstable, hv]

theorem subscriber_mutation_isolation_witness :
    heapClosed 1 [[("x", HVal.prim (.pnum 1))]] = true ∧
    readHVal [[("x", HVal.prim (.pnum 1))]] 1 (.ref 0) =
      some (.obj (.fcons "x" (.prim (.pnum 1)) .fnil)) ∧
    readHVal
      (applyWrites (cloneHVal [[("x", HVal.prim (.pnum 1))]] (.ref 0)).1
        [(1, "x", HVal.prim (.pnum 2))])
      1 (.ref 0) =
      some (.obj (.fcons "x" (.prim (.pnum 1)) .fnil)) := by
  refine ⟨by decide, ?_, ?_⟩
  · show readHVal [[("x", HVal.prim (.pnum 1))]] (0 + 1) (.ref 0) = _
    simp [readHVal, readCells]
  · exact (subscriber_mutation_isolation [[("x", HVal.prim (.pnum 1))]] (.ref 0)
      [(1, "x", HVal.prim (.pnum 2))] (.obj (.fcons "x" (.prim (.pnum 1)) .fnil)) 1
      (by decide) (by decide) (by decide)
      (by show readHVal [[("x", HVal.prim (.pnum 1))]] (0 + 1) (.ref 0) = _
          simp [readHVal, readCells])
      (by simp [vdepth, fieldsDepth])).2
